import Mathlib

/-!
# Verification of `export_graph_to_json.py`

A shallow embedding of `export_hetero_graph_to_json` from
`src/export_graph_to_json.py`, together with theorems settling the claims
about its behaviour.

Modelling conventions:
* Python dicts are association lists; `List.lookup` (first match) models
  dict lookup, and dict-comprehension reversal `{v: k for k, v in d.items()}`
  (later key wins) is modelled by reversing the item list first.
* A failed dict/array access (Python `KeyError`/`IndexError`, which aborts
  the export before any file is written) is modelled by the `Option` monad:
  the export returns `none` exactly when the Python run would raise.
* Numeric attribute values (numpy floats) are carried as exact rationals:
  the code only moves them around (`float(...)` is the identity on the
  stored value, `int(...)` truncates toward zero), it never computes.
* Each of the six `np.random.choice(pop, k, replace=False)` call
  sites runs at most once per export, so the randomness of a run is captured by
  a `Sampler` of six draw functions `n ↦ k ↦ chosen indices`; the facts
  numpy guarantees about a draw (length `k`, no repeats, all below `n`)
  form the `ChoiceValid` predicate and are assumed where a claim needs them.
* A Python `set` of numbers is represented by its strictly sorted list of
  elements (`dedupSort`), which is exactly how the code consumes the sets
  it builds (`sorted(...)` iteration and membership tests).
* The `metadata_df` parameter and the `region` coordinate field are never
  read by the function and are omitted; the file write and `print` calls
  are side effects outside the returned document and are not modelled.
-/

namespace HGTBioGuard

/-- One row of the optional `flights_df` dataframe. `origin`/`destination`
are accessed with `row[...]` (mandatory), the display columns with
`row.get(...)` (optional), hence the `Option` fields. -/
structure FlightRow where
  origin : String
  destination : String
  Latitude : Option Rat := none
  Longitude : Option Rat := none
  City : Option String := none
  Country : Option String := none
  Latitude_destination : Option Rat := none
  Longitude_destination : Option Rat := none
  City_destination : Option String := none
  Country_destination : Option String := none
deriving DecidableEq

/-- Value stored in the `airport_coords` dict (the `region` key is
written for origin rows but never read, so it is not carried). -/
structure CoordInfo where
  lat : Rat
  lon : Rat
  city : String
  country : String
deriving DecidableEq

/-- The `sample_size` dict: key present ⟺ field is `some`. -/
structure SampleSize where
  airports : Option Nat := none
  lineages : Option Nat := none
  edges : Option Nat := none
deriving DecidableEq

/-- Python truthiness of the `sample_size` dict: a dict is truthy iff it
has at least one key. -/
def ssTruthy (s : SampleSize) : Bool :=
  s.airports.isSome || s.lineages.isSome || s.edges.isSome

/-- One relation of the `HeteroData` object: the `(2, E)` `edge_index`
tensor as a list of `(source, destination)` columns, and the optional
`(E, k)` `edge_attr` tensor as a list of rows. -/
structure Relation where
  edgeIndex : List (Int × Int)
  edgeAttr : Option (List (List Rat)) := none
deriving DecidableEq

/-- The `hg` argument: a relation is `some` exactly when its key is in
`hg.edge_types`. -/
structure Hetero where
  flight : Option Relation := none
  sampledAt : Option Relation := none
  evolves : Option Relation := none
  temporal : Option Relation := none
deriving DecidableEq

/-- All arguments of `export_hetero_graph_to_json` that influence the
returned document. -/
structure ExportInput where
  airport_to_idx : List (String × Nat)
  lineage_to_idx : List (String × Nat)
  idx_to_airport : Option (List (Nat × String)) := none
  idx_to_lineage : Option (List (Nat × String)) := none
  flights_df : Option (List FlightRow) := none
  sample_size : Option SampleSize := none
  hg : Hetero

/-- The six `np.random.choice` call sites, one draw function each:
`draw n k` is the list of indices chosen from `range n` when `k` samples
are requested. -/
structure Sampler where
  airports : Nat → Nat → List Nat
  lineages : Nat → Nat → List Nat
  flight : Nat → Nat → List Nat
  sampledAt : Nat → Nat → List Nat
  evolves : Nat → Nat → List Nat
  temporal : Nat → Nat → List Nat

/-- What `np.random.choice(range n, k, replace=False)` guarantees about a
draw whenever it does not raise (`k ≤ n`): `k` results, pairwise distinct,
all below `n`. -/
def ChoiceValid (draw : Nat → Nat → List Nat) : Prop :=
  ∀ n k, k ≤ n →
    (draw n k).length = k ∧ (draw n k).Nodup ∧ ∀ x ∈ draw n k, x < n

/-- A node record of the output `nodes` array; the two constructors carry
the keys an airport / lineage dict actually has. -/
inductive NodeRec where
  | airport (index : Nat) (code : String) (lat lon : Rat) (city country : String)
  | lineage (index : Nat) (name : String)
deriving DecidableEq

/-- The Python f-string yielding `airport_` followed by the decimal index. -/
def airportStringId (i : Int) : String := "airport_" ++ toString i

/-- The Python f-string yielding `lineage_` followed by the decimal index. -/
def lineageStringId (i : Int) : String := "lineage_" ++ toString i

/-- The `id` key of a node record. -/
def NodeRec.id : NodeRec → String
  | .airport i _ _ _ _ _ => airportStringId (i : Int)
  | .lineage i _ => lineageStringId (i : Int)

/-- The `index` key of a node record. -/
def NodeRec.index : NodeRec → Nat
  | .airport i _ _ _ _ _ => i
  | .lineage i _ => i

/-- The `type` key of a node record. -/
def NodeRec.type : NodeRec → String
  | .airport _ _ _ _ _ _ => "airport"
  | .lineage _ _ => "lineage"

/-- A link record of the output `links` array; `week`, `time_start`,
`time_end` are `some` exactly for the relation types that write them. -/
structure LinkRec where
  source : String
  target : String
  type : String
  weight : Rat
  week : Option Int := none
  time_start : Option Int := none
  time_end : Option Int := none
deriving DecidableEq

/-- The `metadata` block of the output document. -/
structure Metadata where
  num_airports : Nat
  num_lineages : Nat
  num_edges : Nat
  edge_types : List String
  sampled : Bool
deriving DecidableEq

/-- The returned document `output_data`. -/
structure Output where
  nodes : List NodeRec
  links : List LinkRec
  metadata : Metadata
deriving DecidableEq

/-! ## Small generic helpers (Option-monad loops, sorted sets) -/

/-- A Python loop that builds a list, aborting the whole run when an
access raises: `mapOpt f l = some l'` iff every `f a` succeeded. -/
def mapOpt (f : α → Option β) : List α → Option (List β)
  | [] => some []
  | a :: l => do
    let b ← f a
    let bs ← mapOpt f l
    pure (b :: bs)

/-- A Python loop that appends zero or more records per iteration,
aborting the whole run when an access raises. -/
def collectOpt (f : α → Option (List β)) : List α → Option (List β)
  | [] => some []
  | a :: l => do
    let bs ← f a
    let rest ← collectOpt f l
    pure (bs ++ rest)

/-- Insert into a strictly increasing list, dropping duplicates. -/
def insertSorted (x : Nat) : List Nat → List Nat
  | [] => [x]
  | y :: ys =>
    if x < y then x :: y :: ys
    else if x = y then y :: ys
    else y :: insertSorted x ys

/-- Python `sorted(set(l))`: the strictly increasing enumeration of the distinct
elements of `l`. -/
def dedupSort (l : List Nat) : List Nat := l.foldr insertSorted []

/-- Python `x in s` for an integer `x` and a set `s` of naturals. -/
def intMem (x : Int) (s : List Nat) : Bool :=
  s.any fun n => (n : Int) == x

/-- Python `int(q)` on a float: truncation toward zero. -/
def pyInt (q : Rat) : Int := q.num.tdiv (q.den : Int)

/-! ## The exporter, piece by piece -/

/-- The dict comprehension inverting a mapping: on duplicate values the
later key wins, i.e. the first hit in the reversed item list. -/
def invert (d : List (String × Nat)) : List (Nat × String) :=
  (d.map fun p => (p.2, p.1)).reverse

/-- Pandas `df.drop_duplicates(col)`: keep the first row for each key value. -/
def dropDuplicates (key : FlightRow → String) (rows : List FlightRow) : List FlightRow :=
  (rows.foldl
    (fun (acc : List String × List FlightRow) r =>
      if (key r) ∈ acc.1 then acc else (key r :: acc.1, acc.2 ++ [r]))
    ([], [])).2

/-- The `airport_coords` dict built from `flights_df` (lines 60–83):
origin rows first (deduplicated on `origin`, kept only when the code is a
key of `airport_to_idx`), then destination rows that are not yet present.
-/
def buildCoords (fd : Option (List FlightRow)) (a2i : List (String × Nat)) :
    List (String × CoordInfo) :=
  match fd with
  | none => []
  | some rows =>
    let afterOrigin :=
      (dropDuplicates FlightRow.origin rows).foldl
        (fun acc r =>
          if (a2i.lookup r.origin).isSome then
            acc ++ [(r.origin,
              ⟨r.Latitude.getD 0, r.Longitude.getD 0,
               r.City.getD ("Unknown City"), r.Country.getD ("Unknown Country")⟩)]
          else acc) []
    (dropDuplicates FlightRow.destination rows).foldl
      (fun acc r =>
        if (a2i.lookup r.destination).isSome && (acc.lookup r.destination).isNone then
          acc ++ [(r.destination,
            ⟨r.Latitude_destination.getD 0, r.Longitude_destination.getD 0,
             r.City_destination.getD (""), r.Country_destination.getD ("")⟩)]
        else acc) afterOrigin

/-- Lines 86–95: the airport membership set. The Python test
(`sample_size` truthy and the airports key present) gates the draw of
`min(limit, N)` indices; otherwise the set is all of `range N`. -/
def airportIndicesOf (ss : Option SampleSize) (n : Nat)
    (draw : Nat → Nat → List Nat) : List Nat :=
  match ss with
  | none => List.range n
  | some s =>
    if ssTruthy s then
      match s.airports with
      | some lim => dedupSort (draw n (min lim n))
      | none => List.range n
    else List.range n

/-- Lines 119–128: the lineage membership set, same shape. -/
def lineageIndicesOf (ss : Option SampleSize) (n : Nat)
    (draw : Nat → Nat → List Nat) : List Nat :=
  match ss with
  | none => List.range n
  | some s =>
    if ssTruthy s then
      match s.lineages with
      | some lim => dedupSort (draw n (min lim n))
      | none => List.range n
    else List.range n

/-- Line 152: the edges cap, read from `sample_size` only when that dict
is truthy (an empty dict is falsy and gives no cap). -/
def maxEdgesPerType (ss : Option SampleSize) : Option Nat :=
  match ss with
  | none => none
  | some s => if ssTruthy s then s.edges else none

/-- Lines 145–150, `sample_edges`: subsample the edge columns only when
`max_edges` is truthy (not `None` and nonzero) and there are strictly
more edges than the cap. -/
def sample_edges (draw : Nat → Nat → List Nat) (edge_index : List (Int × Int))
    (max_edges : Option Nat) : List (Int × Int) :=
  let num_edges := edge_index.length
  match max_edges with
  | none => edge_index
  | some m =>
    if m ≠ 0 && decide (num_edges > m) then
      (draw num_edges m).filterMap fun i => edge_index.get? i
    else edge_index

/-- Per-iteration body of the flight loop (lines 163–174): membership
test, then `float(edge_attr[i, 0].item()) if edge_attr is not None else
1.0`. The attribute is indexed by the position `i` in the (possibly
subsampled) edge list, exactly as the code does. -/
def flightLinkAt (aSet : List Nat) (attr : Option (List (List Rat)))
    (ie : Nat × (Int × Int)) : Option (List LinkRec) :=
  let i := ie.1
  let src := ie.2.1
  let dst := ie.2.2
  if intMem src aSet && intMem dst aSet then
    match attr with
    | none => some [{ source := airportStringId src, target := airportStringId dst,
                      type := "flight", weight := 1 }]
    | some a => do
      let row ← a.get? i
      let w ← row.get? 0
      pure [{ source := airportStringId src, target := airportStringId dst,
              type := "flight", weight := w }]
  else some []

/-- The expression `edge_attr[i].tolist() if edge_attr is not None else dflt`. -/
def timeInfoAt (attr : Option (List (List Rat))) (dflt : List Rat) (i : Nat) :
    Option (List Rat) :=
  match attr with
  | none => some dflt
  | some a => a.get? i

/-- Per-iteration body of the sampled_at loop (lines 186–198). -/
def sampledAtLinkAt (lSet aSet : List Nat) (attr : Option (List (List Rat)))
    (ie : Nat × (Int × Int)) : Option (List LinkRec) :=
  let i := ie.1
  let src := ie.2.1
  let dst := ie.2.2
  if intMem src lSet && intMem dst aSet then do
    let ti ← timeInfoAt attr [0, 0] i
    pure [{ source := lineageStringId src, target := airportStringId dst,
            type := "sampled_at",
            weight := if 0 < ti.length then ti.getD 0 0 else 1,
            week := some (if 1 < ti.length then pyInt (ti.getD 1 0) else 0) }]
  else some []

/-- Per-iteration body of the evolves_from loop (lines 210–220). -/
def evolvesLinkAt (lSet : List Nat) (attr : Option (List (List Rat)))
    (ie : Nat × (Int × Int)) : Option (List LinkRec) :=
  let i := ie.1
  let src := ie.2.1
  let dst := ie.2.2
  if intMem src lSet && intMem dst lSet then
    match attr with
    | none => some [{ source := lineageStringId src, target := lineageStringId dst,
                      type := "evolves_from", weight := 1 }]
    | some a => do
      let row ← a.get? i
      let w ← row.get? 0
      pure [{ source := lineageStringId src, target := lineageStringId dst,
              type := "evolves_from", weight := w }]
  else some []

/-- Per-iteration body of the temporal loop (lines 232–245). -/
def temporalLinkAt (lSet : List Nat) (attr : Option (List (List Rat)))
    (ie : Nat × (Int × Int)) : Option (List LinkRec) :=
  let i := ie.1
  let src := ie.2.1
  let dst := ie.2.2
  if intMem src lSet && intMem dst lSet then do
    let ti ← timeInfoAt attr [0, 0, 0] i
    pure [{ source := lineageStringId src, target := lineageStringId dst,
            type := "temporal",
            weight := if 2 < ti.length then ti.getD 2 0 else 1,
            time_start := some (if 0 < ti.length then pyInt (ti.getD 0 0) else 0),
            time_end := some (if 1 < ti.length then pyInt (ti.getD 1 0) else 0) }]
  else some []

/-- One relation section: skipped entirely when the relation key is not
in `hg.edge_types`, otherwise subsample then loop over the columns. -/
def relationLinks (rel : Option Relation)
    (body : Option (List (List Rat)) → Nat × (Int × Int) → Option (List LinkRec))
    (draw : Nat → Nat → List Nat) (cap : Option Nat) : Option (List LinkRec) :=
  match rel with
  | none => some []
  | some r => collectOpt (body r.edgeAttr) (sample_edges draw r.edgeIndex cap).enum

/-- Lines 97–110: build one airport node record. `idx_to_airport[idx]` is
a fallible dict access; `airport_coords.get(code, {})` then `.get(k, d)`
supplies the documented defaults. -/
def buildAirport (coords : List (String × CoordInfo)) (i2a : List (Nat × String))
    (idx : Nat) : Option NodeRec :=
  match i2a.lookup idx with
  | none => none
  | some code =>
    let c := (coords.lookup code).getD ⟨0, 0, "", ""⟩
    some (NodeRec.airport idx code c.lat c.lon c.city c.country)

/-- Lines 130–137: build one lineage node record. -/
def buildLineage (i2l : List (Nat × String)) (idx : Nat) : Option NodeRec :=
  (i2l.lookup idx).map fun name => NodeRec.lineage idx name

/-- The airport membership set of one run (lines 86–95). -/
def airportSetOf (inp : ExportInput) (rng : Sampler) : List Nat :=
  airportIndicesOf inp.sample_size inp.airport_to_idx.length rng.airports

/-- The lineage membership set of one run (lines 119–128). -/
def lineageSetOf (inp : ExportInput) (rng : Sampler) : List Nat :=
  lineageIndicesOf inp.sample_size inp.lineage_to_idx.length rng.lineages

/-- The `airports` list of node records of one run (lines 97–110),
using the given `idx_to_airport` or the inverted mapping (lines 50–51).
-/
def airportsOf (inp : ExportInput) (rng : Sampler) : Option (List NodeRec) :=
  mapOpt
    (buildAirport (buildCoords inp.flights_df inp.airport_to_idx)
      (inp.idx_to_airport.getD (invert inp.airport_to_idx)))
    (airportSetOf inp rng)

/-- The `lineages` list of node records of one run (lines 130–137). -/
def lineagesOf (inp : ExportInput) (rng : Sampler) : Option (List NodeRec) :=
  mapOpt (buildLineage (inp.idx_to_lineage.getD (invert inp.lineage_to_idx)))
    (lineageSetOf inp rng)

/-- The flight section of the `edges` list (lines 154–174). -/
def flightLinksOf (inp : ExportInput) (rng : Sampler) : Option (List LinkRec) :=
  relationLinks inp.hg.flight (flightLinkAt (airportSetOf inp rng)) rng.flight
    (maxEdgesPerType inp.sample_size)

/-- The sampled_at section of the `edges` list (lines 178–198). -/
def sampledAtLinksOf (inp : ExportInput) (rng : Sampler) : Option (List LinkRec) :=
  relationLinks inp.hg.sampledAt (sampledAtLinkAt (lineageSetOf inp rng) (airportSetOf inp rng))
    rng.sampledAt (maxEdgesPerType inp.sample_size)

/-- The evolves_from section of the `edges` list (lines 202–220). -/
def evolvesLinksOf (inp : ExportInput) (rng : Sampler) : Option (List LinkRec) :=
  relationLinks inp.hg.evolves (evolvesLinkAt (lineageSetOf inp rng)) rng.evolves
    (maxEdgesPerType inp.sample_size)

/-- The temporal section of the `edges` list (lines 224–245). -/
def temporalLinksOf (inp : ExportInput) (rng : Sampler) : Option (List LinkRec) :=
  relationLinks inp.hg.temporal (temporalLinkAt (lineageSetOf inp rng)) rng.temporal
    (maxEdgesPerType inp.sample_size)

/-- Lines 250–260: assemble `output_data`. -/
def assembleOutput (ss : Option SampleSize) (airports lineages : List NodeRec)
    (edges : List LinkRec) : Output :=
  { nodes := airports ++ lineages
    links := edges
    metadata :=
      { num_airports := airports.length
        num_lineages := lineages.length
        num_edges := edges.length
        edge_types := (edges.map LinkRec.type).dedup
        sampled := ss.isSome } }

/-- The whole of `export_hetero_graph_to_json` (lines 12–274), as the
document it returns; `none` models a raised exception (nothing written,
the run aborts). -/
def export_hetero_graph_to_json (inp : ExportInput) (rng : Sampler) : Option Output :=
  (airportsOf inp rng).bind fun airports =>
  (lineagesOf inp rng).bind fun lineages =>
  (flightLinksOf inp rng).bind fun fl =>
  (sampledAtLinksOf inp rng).bind fun sa =>
  (evolvesLinksOf inp rng).bind fun ev =>
  (temporalLinksOf inp rng).bind fun te =>
  some (assembleOutput inp.sample_size airports lineages (fl ++ sa ++ ev ++ te))

/-! ## Definitions that restate phrases of the claims

These are compared against the behaviour of the code; they are not part of
the translation of the source. -/

/-- The phrase of the claims "some sampling limit (node limit or edge cap) was
actually given": at least one limit value is present in `sample_size`. -/
def limitGiven : Option SampleSize → Bool
  | none => false
  | some s => s.airports.isSome || s.lineages.isSome || s.edges.isSome

/-- The limit the code acts on for airports: the airports value when
the `sample_size` dict is truthy and has that key, else nothing. -/
def airportLimitRequested (ss : Option SampleSize) : Option Nat :=
  match ss with
  | none => none
  | some s => if ssTruthy s then s.airports else none

/-- The limit the code acts on for lineages. -/
def lineageLimitRequested (ss : Option SampleSize) : Option Nat :=
  match ss with
  | none => none
  | some s => if ssTruthy s then s.lineages else none

/-- An edge endpoint that is out of range for a membership set drawn from
`range n`: negative, at least `n`, or simply not selected. -/
def OutOfRange (x : Int) (n : Nat) (s : List Nat) : Prop :=
  x < 0 ∨ (n : Int) ≤ x ∨ intMem x s = false

/-! ## Lemmas about the Option-monad loops -/

theorem mapOpt_length {f : α → Option β} :
    ∀ {l : List α} {l' : List β}, mapOpt f l = some l' → l'.length = l.length
  | [], _, h => by
    simp only [mapOpt, Option.some.injEq] at h; subst h; rfl
  | a :: l, l', h => by
    simp only [mapOpt, Option.bind_eq_bind, Option.bind_eq_some, Option.pure_def,
      Option.some.injEq] at h
    obtain ⟨b, _, bs, hbs, rfl⟩ := h
    simp [mapOpt_length hbs]

theorem mapOpt_mem {f : α → Option β} :
    ∀ {l : List α} {l' : List β}, mapOpt f l = some l' →
      ∀ a ∈ l, ∃ b ∈ l', f a = some b
  | [], _, _ => by simp
  | a :: l, l', h => by
    simp only [mapOpt, Option.bind_eq_bind, Option.bind_eq_some, Option.pure_def,
      Option.some.injEq] at h
    obtain ⟨b, hb, bs, hbs, rfl⟩ := h
    intro x hx
    rcases List.mem_cons.mp hx with rfl | hx
    · exact ⟨b, List.mem_cons_self .., hb⟩
    · obtain ⟨c, hc, hfc⟩ := mapOpt_mem hbs x hx
      exact ⟨c, List.mem_cons_of_mem _ hc, hfc⟩

theorem mapOpt_mem_rev {f : α → Option β} :
    ∀ {l : List α} {l' : List β}, mapOpt f l = some l' →
      ∀ b ∈ l', ∃ a ∈ l, f a = some b
  | [], _, h => by
    simp only [mapOpt, Option.some.injEq] at h; subst h; simp
  | a :: l, l', h => by
    simp only [mapOpt, Option.bind_eq_bind, Option.bind_eq_some, Option.pure_def,
      Option.some.injEq] at h
    obtain ⟨b, hb, bs, hbs, rfl⟩ := h
    intro c hc
    rcases List.mem_cons.mp hc with rfl | hc
    · exact ⟨a, List.mem_cons_self .., hb⟩
    · obtain ⟨x, hx, hfx⟩ := mapOpt_mem_rev hbs c hc
      exact ⟨x, List.mem_cons_of_mem _ hx, hfx⟩

theorem mapOpt_map_eq {f : α → Option β} {g : β → α}
    (hg : ∀ a b, f a = some b → g b = a) :
    ∀ {l : List α} {l' : List β}, mapOpt f l = some l' → l'.map g = l
  | [], _, h => by
    simp only [mapOpt, Option.some.injEq] at h; subst h; rfl
  | a :: l, l', h => by
    simp only [mapOpt, Option.bind_eq_bind, Option.bind_eq_some, Option.pure_def,
      Option.some.injEq] at h
    obtain ⟨b, hb, bs, hbs, rfl⟩ := h
    simp [hg a b hb, mapOpt_map_eq hg hbs]

theorem collectOpt_mem {f : α → Option (List β)} :
    ∀ {l : List α} {l' : List β}, collectOpt f l = some l' →
      ∀ b ∈ l', ∃ a ∈ l, ∃ bs, f a = some bs ∧ b ∈ bs
  | [], _, h => by
    simp only [collectOpt, Option.some.injEq] at h; subst h; simp
  | a :: l, l', h => by
    simp only [collectOpt, Option.bind_eq_bind, Option.bind_eq_some, Option.pure_def,
      Option.some.injEq] at h
    obtain ⟨bs, hbs, rest, hrest, rfl⟩ := h
    intro b hb
    rcases List.mem_append.mp hb with hb | hb
    · exact ⟨a, List.mem_cons_self .., bs, hbs, hb⟩
    · obtain ⟨x, hx, cs, hcs, hbc⟩ := collectOpt_mem hrest b hb
      exact ⟨x, List.mem_cons_of_mem _ hx, cs, hcs, hbc⟩

theorem collectOpt_length_le {f : α → Option (List β)}
    (h1 : ∀ a bs, f a = some bs → bs.length ≤ 1) :
    ∀ {l : List α} {l' : List β}, collectOpt f l = some l' → l'.length ≤ l.length
  | [], _, h => by
    simp only [collectOpt, Option.some.injEq] at h; subst h; simp
  | a :: l, l', h => by
    simp only [collectOpt, Option.bind_eq_bind, Option.bind_eq_some, Option.pure_def,
      Option.some.injEq] at h
    obtain ⟨bs, hbs, rest, hrest, rfl⟩ := h
    have hb := h1 a bs hbs
    have hr := collectOpt_length_le h1 hrest
    simp only [List.length_append, List.length_cons]
    omega

theorem collectOpt_forall {f : α → Option (List β)} {P : β → Prop}
    (hf : ∀ a, ∃ bs, f a = some bs ∧ ∀ b ∈ bs, P b) :
    ∀ l : List α, ∃ l', collectOpt f l = some l' ∧ ∀ b ∈ l', P b
  | [] => ⟨[], rfl, by simp⟩
  | a :: l => by
    obtain ⟨bs, hbs, hP⟩ := hf a
    obtain ⟨rest, hrest, hPr⟩ := collectOpt_forall hf l
    refine ⟨bs ++ rest, ?_, ?_⟩
    · simp [collectOpt, hbs, hrest]
    · intro b hb
      rcases List.mem_append.mp hb with hb | hb
      · exact hP b hb
      · exact hPr b hb

/-! ## Lemmas about `dedupSort` -/

theorem mem_insertSorted {x a : Nat} :
    ∀ {l : List Nat}, a ∈ insertSorted x l ↔ a = x ∨ a ∈ l
  | [] => by simp [insertSorted]
  | y :: ys => by
    simp only [insertSorted]
    split
    · simp [List.mem_cons]
    · split
      · next hlt heq =>
        subst heq
        simp only [List.mem_cons]
        tauto
      · simp only [List.mem_cons, mem_insertSorted (l := ys)]
        tauto

theorem pairwise_insertSorted {x : Nat} :
    ∀ {l : List Nat}, l.Pairwise (· < ·) → (insertSorted x l).Pairwise (· < ·)
  | [], _ => List.pairwise_singleton _ _
  | y :: ys, h => by
    rw [List.pairwise_cons] at h
    obtain ⟨hy, hys⟩ := h
    simp only [insertSorted]
    split
    · next hxy =>
      refine List.pairwise_cons.mpr ⟨?_, List.pairwise_cons.mpr ⟨hy, hys⟩⟩
      intro b hb
      rcases List.mem_cons.mp hb with rfl | hb
      · exact hxy
      · exact lt_trans hxy (hy b hb)
    · split
      · exact List.pairwise_cons.mpr ⟨hy, hys⟩
      · next hnlt hne =>
        refine List.pairwise_cons.mpr ⟨?_, pairwise_insertSorted hys⟩
        intro b hb
        rcases mem_insertSorted.mp hb with rfl | hb
        · omega
        · exact hy b hb

theorem pairwise_dedupSort : ∀ l : List Nat, (dedupSort l).Pairwise (· < ·)
  | [] => List.Pairwise.nil
  | _ :: l => pairwise_insertSorted (pairwise_dedupSort l)

theorem mem_dedupSort {a : Nat} : ∀ {l : List Nat}, a ∈ dedupSort l ↔ a ∈ l
  | [] => Iff.rfl
  | b :: l => by
    show a ∈ insertSorted b (dedupSort l) ↔ _
    rw [mem_insertSorted, mem_dedupSort]
    simp [List.mem_cons]

theorem length_insertSorted {x : Nat} :
    ∀ {l : List Nat}, x ∉ l → (insertSorted x l).length = l.length + 1
  | [], _ => rfl
  | y :: ys, h => by
    simp only [insertSorted]
    split
    · rfl
    · split
      · next heq => exact absurd (heq ▸ List.mem_cons_self ..) h
      · have hx : x ∉ ys := fun hmem => h (List.mem_cons_of_mem _ hmem)
        simp [length_insertSorted hx]

theorem length_dedupSort {l : List Nat} (h : l.Nodup) :
    (dedupSort l).length = l.length := by
  induction l with
  | nil => rfl
  | cons a l ih =>
    rw [List.nodup_cons] at h
    show (insertSorted a (dedupSort l)).length = _
    rw [length_insertSorted (fun hmem => h.1 (mem_dedupSort.mp hmem)), ih h.2,
      List.length_cons]

/-! ## Lemmas about membership tests and draws -/

theorem intMem_iff {x : Int} {s : List Nat} :
    intMem x s = true ↔ ∃ n ∈ s, (n : Int) = x := by
  simp [intMem, List.any_eq_true]

/-- A deterministic draw function satisfying everything `np.random.choice`
guarantees: take the first `k` indices. -/
def rangeDraw : Nat → Nat → List Nat := fun _ k => List.range k

theorem choiceValid_rangeDraw : ChoiceValid rangeDraw := by
  intro n k hk
  exact ⟨List.length_range k, List.nodup_range k,
    fun x hx => lt_of_lt_of_le (List.mem_range.mp hx) hk⟩

/-- A `Sampler` built from `rangeDraw` for all six call sites. -/
def rangeSampler : Sampler :=
  ⟨rangeDraw, rangeDraw, rangeDraw, rangeDraw, rangeDraw, rangeDraw⟩

/-! ## Lemmas about the membership-set computations -/

theorem airportIndicesOf_eq (ss : Option SampleSize) (n : Nat)
    (draw : Nat → Nat → List Nat) :
    airportIndicesOf ss n draw =
      match airportLimitRequested ss with
      | some lim => dedupSort (draw n (min lim n))
      | none => List.range n := by
  cases ss with
  | none => rfl
  | some s =>
    simp only [airportIndicesOf, airportLimitRequested]
    by_cases h : ssTruthy s = true
    · simp only [h, if_true]
    · simp [eq_false_of_ne_true h]

theorem lineageIndicesOf_eq (ss : Option SampleSize) (n : Nat)
    (draw : Nat → Nat → List Nat) :
    lineageIndicesOf ss n draw =
      match lineageLimitRequested ss with
      | some lim => dedupSort (draw n (min lim n))
      | none => List.range n := by
  cases ss with
  | none => rfl
  | some s =>
    simp only [lineageIndicesOf, lineageLimitRequested]
    by_cases h : ssTruthy s = true
    · simp only [h, if_true]
    · simp [eq_false_of_ne_true h]

theorem pairwise_airportIndicesOf (ss : Option SampleSize) (n : Nat)
    (draw : Nat → Nat → List Nat) :
    (airportIndicesOf ss n draw).Pairwise (· < ·) := by
  rw [airportIndicesOf_eq]
  cases airportLimitRequested ss with
  | none => exact List.pairwise_lt_range n
  | some lim => exact pairwise_dedupSort _

theorem pairwise_lineageIndicesOf (ss : Option SampleSize) (n : Nat)
    (draw : Nat → Nat → List Nat) :
    (lineageIndicesOf ss n draw).Pairwise (· < ·) := by
  rw [lineageIndicesOf_eq]
  cases lineageLimitRequested ss with
  | none => exact List.pairwise_lt_range n
  | some lim => exact pairwise_dedupSort _

theorem mem_airportIndicesOf_lt {ss : Option SampleSize} {n : Nat}
    {draw : Nat → Nat → List Nat} (hd : ChoiceValid draw) :
    ∀ y ∈ airportIndicesOf ss n draw, y < n := by
  rw [airportIndicesOf_eq]
  cases airportLimitRequested ss with
  | none => intro y hy; exact List.mem_range.mp hy
  | some lim =>
    intro y hy
    exact (hd n (min lim n) (min_le_right _ _)).2.2 y (mem_dedupSort.mp hy)

theorem mem_lineageIndicesOf_lt {ss : Option SampleSize} {n : Nat}
    {draw : Nat → Nat → List Nat} (hd : ChoiceValid draw) :
    ∀ y ∈ lineageIndicesOf ss n draw, y < n := by
  rw [lineageIndicesOf_eq]
  cases lineageLimitRequested ss with
  | none => intro y hy; exact List.mem_range.mp hy
  | some lim =>
    intro y hy
    exact (hd n (min lim n) (min_le_right _ _)).2.2 y (mem_dedupSort.mp hy)

theorem length_airportIndicesOf_some {ss : Option SampleSize} {n L : Nat}
    {draw : Nat → Nat → List Nat} (hd : ChoiceValid draw)
    (hreq : airportLimitRequested ss = some L) :
    (airportIndicesOf ss n draw).length = min L n := by
  rw [airportIndicesOf_eq, hreq]
  obtain ⟨hlen, hnd, _⟩ := hd n (min L n) (min_le_right _ _)
  show (dedupSort (draw n (min L n))).length = min L n
  rw [length_dedupSort hnd, hlen]

theorem length_airportIndicesOf_none {ss : Option SampleSize} {n : Nat}
    {draw : Nat → Nat → List Nat} (hreq : airportLimitRequested ss = none) :
    (airportIndicesOf ss n draw).length = n := by
  rw [airportIndicesOf_eq, hreq]
  exact List.length_range n

theorem length_lineageIndicesOf_some {ss : Option SampleSize} {n L : Nat}
    {draw : Nat → Nat → List Nat} (hd : ChoiceValid draw)
    (hreq : lineageLimitRequested ss = some L) :
    (lineageIndicesOf ss n draw).length = min L n := by
  rw [lineageIndicesOf_eq, hreq]
  obtain ⟨hlen, hnd, _⟩ := hd n (min L n) (min_le_right _ _)
  show (dedupSort (draw n (min L n))).length = min L n
  rw [length_dedupSort hnd, hlen]

theorem length_lineageIndicesOf_none {ss : Option SampleSize} {n : Nat}
    {draw : Nat → Nat → List Nat} (hreq : lineageLimitRequested ss = none) :
    (lineageIndicesOf ss n draw).length = n := by
  rw [lineageIndicesOf_eq, hreq]
  exact List.length_range n

/-! ## Inversion of one export run -/

theorem export_destruct {inp : ExportInput} {rng : Sampler} {out : Output}
    (h : export_hetero_graph_to_json inp rng = some out) :
    ∃ airports lineages fl sa ev te,
      airportsOf inp rng = some airports ∧
      lineagesOf inp rng = some lineages ∧
      flightLinksOf inp rng = some fl ∧
      sampledAtLinksOf inp rng = some sa ∧
      evolvesLinksOf inp rng = some ev ∧
      temporalLinksOf inp rng = some te ∧
      out = assembleOutput inp.sample_size airports lineages (fl ++ sa ++ ev ++ te) := by
  simp only [export_hetero_graph_to_json, Option.bind_eq_some, Option.some.injEq] at h
  obtain ⟨airports, ha, lineages, hl, fl, hf, sa, hs, ev, he, te, ht, hout⟩ := h
  exact ⟨airports, lineages, fl, sa, ev, te, ha, hl, hf, hs, he, ht, hout.symm⟩

/-! ## Shape of the records each builder can emit -/

theorem buildAirport_shape {coords : List (String × CoordInfo)}
    {i2a : List (Nat × String)} {idx : Nat} {r : NodeRec}
    (h : buildAirport coords i2a idx = some r) :
    r.id = airportStringId (idx : Int) ∧ r.index = idx ∧ r.type = "airport" := by
  simp only [buildAirport] at h
  split at h
  · cases h
  · injection h with h
    subst h
    exact ⟨rfl, rfl, rfl⟩

theorem buildLineage_shape {i2l : List (Nat × String)} {idx : Nat} {r : NodeRec}
    (h : buildLineage i2l idx = some r) :
    r.id = lineageStringId (idx : Int) ∧ r.index = idx ∧ r.type = "lineage" := by
  simp only [buildLineage, Option.map_eq_some'] at h
  obtain ⟨name, _, rfl⟩ := h
  exact ⟨rfl, rfl, rfl⟩

theorem flightLinkAt_shape {aSet : List Nat} {attr : Option (List (List Rat))}
    {ie : Nat × Int × Int} {ls : List LinkRec}
    (h : flightLinkAt aSet attr ie = some ls) :
    ∀ l ∈ ls, l.type = "flight" ∧
      (∃ sn ∈ aSet, l.source = airportStringId (sn : Int)) ∧
      (∃ tn ∈ aSet, l.target = airportStringId (tn : Int)) := by
  obtain ⟨i, src, dst⟩ := ie
  dsimp only [flightLinkAt] at h
  split at h
  · next hc =>
    rw [Bool.and_eq_true] at hc
    obtain ⟨hsrc, hdst⟩ := hc
    obtain ⟨sn, hsn, hsrc'⟩ := intMem_iff.mp hsrc
    obtain ⟨tn, htn, hdst'⟩ := intMem_iff.mp hdst
    subst hsrc' hdst'
    cases attr with
    | none =>
      injection h with h
      subst h
      intro l hl
      rw [List.mem_singleton] at hl
      subst hl
      exact ⟨rfl, ⟨sn, hsn, rfl⟩, ⟨tn, htn, rfl⟩⟩
    | some a =>
      simp only [Option.bind_eq_bind, Option.bind_eq_some, Option.pure_def,
        Option.some.injEq] at h
      obtain ⟨row, _, w, _, rfl⟩ := h
      intro l hl
      rw [List.mem_singleton] at hl
      subst hl
      exact ⟨rfl, ⟨sn, hsn, rfl⟩, ⟨tn, htn, rfl⟩⟩
  · injection h with h
    subst h
    intro l hl
    exact absurd hl (List.not_mem_nil l)

theorem sampledAtLinkAt_shape {lSet aSet : List Nat}
    {attr : Option (List (List Rat))} {ie : Nat × Int × Int} {ls : List LinkRec}
    (h : sampledAtLinkAt lSet aSet attr ie = some ls) :
    ∀ l ∈ ls, l.type = "sampled_at" ∧
      (∃ sn ∈ lSet, l.source = lineageStringId (sn : Int)) ∧
      (∃ tn ∈ aSet, l.target = airportStringId (tn : Int)) := by
  obtain ⟨i, src, dst⟩ := ie
  dsimp only [sampledAtLinkAt] at h
  split at h
  · next hc =>
    rw [Bool.and_eq_true] at hc
    obtain ⟨hsrc, hdst⟩ := hc
    obtain ⟨sn, hsn, hsrc'⟩ := intMem_iff.mp hsrc
    obtain ⟨tn, htn, hdst'⟩ := intMem_iff.mp hdst
    subst hsrc' hdst'
    simp only [Option.bind_eq_bind, Option.bind_eq_some, Option.pure_def,
      Option.some.injEq] at h
    obtain ⟨ti, _, rfl⟩ := h
    intro l hl
    rw [List.mem_singleton] at hl
    subst hl
    exact ⟨rfl, ⟨sn, hsn, rfl⟩, ⟨tn, htn, rfl⟩⟩
  · injection h with h
    subst h
    intro l hl
    exact absurd hl (List.not_mem_nil l)

theorem evolvesLinkAt_shape {lSet : List Nat} {attr : Option (List (List Rat))}
    {ie : Nat × Int × Int} {ls : List LinkRec}
    (h : evolvesLinkAt lSet attr ie = some ls) :
    ∀ l ∈ ls, l.type = "evolves_from" ∧
      (∃ sn ∈ lSet, l.source = lineageStringId (sn : Int)) ∧
      (∃ tn ∈ lSet, l.target = lineageStringId (tn : Int)) := by
  obtain ⟨i, src, dst⟩ := ie
  dsimp only [evolvesLinkAt] at h
  split at h
  · next hc =>
    rw [Bool.and_eq_true] at hc
    obtain ⟨hsrc, hdst⟩ := hc
    obtain ⟨sn, hsn, hsrc'⟩ := intMem_iff.mp hsrc
    obtain ⟨tn, htn, hdst'⟩ := intMem_iff.mp hdst
    subst hsrc' hdst'
    cases attr with
    | none =>
      injection h with h
      subst h
      intro l hl
      rw [List.mem_singleton] at hl
      subst hl
      exact ⟨rfl, ⟨sn, hsn, rfl⟩, ⟨tn, htn, rfl⟩⟩
    | some a =>
      simp only [Option.bind_eq_bind, Option.bind_eq_some, Option.pure_def,
        Option.some.injEq] at h
      obtain ⟨row, _, w, _, rfl⟩ := h
      intro l hl
      rw [List.mem_singleton] at hl
      subst hl
      exact ⟨rfl, ⟨sn, hsn, rfl⟩, ⟨tn, htn, rfl⟩⟩
  · injection h with h
    subst h
    intro l hl
    exact absurd hl (List.not_mem_nil l)

theorem temporalLinkAt_shape {lSet : List Nat} {attr : Option (List (List Rat))}
    {ie : Nat × Int × Int} {ls : List LinkRec}
    (h : temporalLinkAt lSet attr ie = some ls) :
    ∀ l ∈ ls, l.type = "temporal" ∧
      (∃ sn ∈ lSet, l.source = lineageStringId (sn : Int)) ∧
      (∃ tn ∈ lSet, l.target = lineageStringId (tn : Int)) := by
  obtain ⟨i, src, dst⟩ := ie
  dsimp only [temporalLinkAt] at h
  split at h
  · next hc =>
    rw [Bool.and_eq_true] at hc
    obtain ⟨hsrc, hdst⟩ := hc
    obtain ⟨sn, hsn, hsrc'⟩ := intMem_iff.mp hsrc
    obtain ⟨tn, htn, hdst'⟩ := intMem_iff.mp hdst
    subst hsrc' hdst'
    simp only [Option.bind_eq_bind, Option.bind_eq_some, Option.pure_def,
      Option.some.injEq] at h
    obtain ⟨ti, _, rfl⟩ := h
    intro l hl
    rw [List.mem_singleton] at hl
    subst hl
    exact ⟨rfl, ⟨sn, hsn, rfl⟩, ⟨tn, htn, rfl⟩⟩
  · injection h with h
    subst h
    intro l hl
    exact absurd hl (List.not_mem_nil l)

/-- Every property enjoyed by every list a loop body can return is
enjoyed by every link of the section of that relation. -/
theorem relationLinks_forall {rel : Option Relation}
    {body : Option (List (List Rat)) → Nat × Int × Int → Option (List LinkRec)}
    {draw : Nat → Nat → List Nat} {cap : Option Nat} {ls : List LinkRec}
    (h : relationLinks rel body draw cap = some ls)
    {P : LinkRec → Prop}
    (hbody : ∀ attr ie bs, body attr ie = some bs → ∀ l ∈ bs, P l) :
    ∀ l ∈ ls, P l := by
  cases rel with
  | none =>
    injection h with h
    subst h
    intro l hl
    exact absurd hl (List.not_mem_nil l)
  | some r =>
    dsimp only [relationLinks] at h
    intro l hl
    obtain ⟨ie, _, bs, hbs, hlb⟩ := collectOpt_mem h l hl
    exact hbody r.edgeAttr ie bs hbs l hlb

/-! ## Per-edge bounds and default values -/

theorem sample_edges_length_le {draw : Nat → Nat → List Nat}
    {ei : List (Int × Int)} {C : Nat} (hd : ChoiceValid draw) (hC : C ≠ 0) :
    (sample_edges draw ei (some C)).length ≤ C := by
  dsimp only [sample_edges]
  by_cases hgt : ei.length > C
  · rw [if_pos (by simp [hC, hgt])]
    have hlen := (hd ei.length C (le_of_lt hgt)).1
    calc ((draw ei.length C).filterMap fun i => ei.get? i).length
        ≤ (draw ei.length C).length := List.length_filterMap_le _ _
      _ = C := hlen
  · rw [if_neg (by simp [hgt])]
    exact Nat.le_of_not_lt hgt

theorem flightLinkAt_length_le {aSet : List Nat} {attr : Option (List (List Rat))}
    {ie : Nat × Int × Int} {ls : List LinkRec}
    (h : flightLinkAt aSet attr ie = some ls) : ls.length ≤ 1 := by
  obtain ⟨i, src, dst⟩ := ie
  dsimp only [flightLinkAt] at h
  split at h
  · cases attr with
    | none => injection h with h; subst h; exact le_refl 1
    | some a =>
      simp only [Option.bind_eq_bind, Option.bind_eq_some, Option.pure_def,
        Option.some.injEq] at h
      obtain ⟨row, _, w, _, rfl⟩ := h
      exact le_refl 1
  · injection h with h; subst h; exact Nat.zero_le 1

theorem sampledAtLinkAt_length_le {lSet aSet : List Nat}
    {attr : Option (List (List Rat))} {ie : Nat × Int × Int} {ls : List LinkRec}
    (h : sampledAtLinkAt lSet aSet attr ie = some ls) : ls.length ≤ 1 := by
  obtain ⟨i, src, dst⟩ := ie
  dsimp only [sampledAtLinkAt] at h
  split at h
  · simp only [Option.bind_eq_bind, Option.bind_eq_some, Option.pure_def,
      Option.some.injEq] at h
    obtain ⟨ti, _, rfl⟩ := h
    exact le_refl 1
  · injection h with h; subst h; exact Nat.zero_le 1

theorem evolvesLinkAt_length_le {lSet : List Nat} {attr : Option (List (List Rat))}
    {ie : Nat × Int × Int} {ls : List LinkRec}
    (h : evolvesLinkAt lSet attr ie = some ls) : ls.length ≤ 1 := by
  obtain ⟨i, src, dst⟩ := ie
  dsimp only [evolvesLinkAt] at h
  split at h
  · cases attr with
    | none => injection h with h; subst h; exact le_refl 1
    | some a =>
      simp only [Option.bind_eq_bind, Option.bind_eq_some, Option.pure_def,
        Option.some.injEq] at h
      obtain ⟨row, _, w, _, rfl⟩ := h
      exact le_refl 1
  · injection h with h; subst h; exact Nat.zero_le 1

theorem temporalLinkAt_length_le {lSet : List Nat} {attr : Option (List (List Rat))}
    {ie : Nat × Int × Int} {ls : List LinkRec}
    (h : temporalLinkAt lSet attr ie = some ls) : ls.length ≤ 1 := by
  obtain ⟨i, src, dst⟩ := ie
  dsimp only [temporalLinkAt] at h
  split at h
  · simp only [Option.bind_eq_bind, Option.bind_eq_some, Option.pure_def,
      Option.some.injEq] at h
    obtain ⟨ti, _, rfl⟩ := h
    exact le_refl 1
  · injection h with h; subst h; exact Nat.zero_le 1

/-- A relation section subsampled to a nonzero cap `C` yields at most `C`
links, as long as each loop iteration appends at most one record. -/
theorem relationLinks_length_le {rel : Option Relation}
    {body : Option (List (List Rat)) → Nat × Int × Int → Option (List LinkRec)}
    {draw : Nat → Nat → List Nat} {C : Nat} {ls : List LinkRec}
    (hd : ChoiceValid draw) (hC : C ≠ 0)
    (hbody : ∀ attr ie bs, body attr ie = some bs → bs.length ≤ 1)
    (h : relationLinks rel body draw (some C) = some ls) :
    ls.length ≤ C := by
  cases rel with
  | none =>
    injection h with h; subst h
    exact Nat.zero_le C
  | some r =>
    dsimp only [relationLinks] at h
    have h1 := collectOpt_length_le (fun ie bs hbs => hbody r.edgeAttr ie bs hbs) h
    have h2 : (sample_edges draw r.edgeIndex (some C)).enum.length
        = (sample_edges draw r.edgeIndex (some C)).length := List.enum_length
    have h3 := @sample_edges_length_le draw r.edgeIndex C hd hC
    omega

/-- An endpoint that is out of range for a membership set bounded by `n`
fails the Python membership test. -/
theorem intMem_eq_false_of_outOfRange {x : Int} {n : Nat} {s : List Nat}
    (hs : ∀ y ∈ s, y < n) (h : OutOfRange x n s) : intMem x s = false := by
  rcases h with hneg | hge | hmem
  · cases hm : intMem x s with
    | false => rfl
    | true =>
      obtain ⟨m, _, rfl⟩ := intMem_iff.mp hm
      omega
  · cases hm : intMem x s with
    | false => rfl
    | true =>
      obtain ⟨m, hms, rfl⟩ := intMem_iff.mp hm
      have := hs m hms
      omega
  · exact hmem

theorem flightLinkAt_dropped {aSet : List Nat} {attr : Option (List (List Rat))}
    {i : Nat} {src dst : Int}
    (h : intMem src aSet = false ∨ intMem dst aSet = false) :
    flightLinkAt aSet attr (i, (src, dst)) = some [] := by
  dsimp only [flightLinkAt]
  rcases h with h | h <;> rw [if_neg (by simp [h])]

theorem sampledAtLinkAt_dropped {lSet aSet : List Nat}
    {attr : Option (List (List Rat))} {i : Nat} {src dst : Int}
    (h : intMem src lSet = false ∨ intMem dst aSet = false) :
    sampledAtLinkAt lSet aSet attr (i, (src, dst)) = some [] := by
  dsimp only [sampledAtLinkAt]
  rcases h with h | h <;> rw [if_neg (by simp [h])]

theorem evolvesLinkAt_dropped {lSet : List Nat} {attr : Option (List (List Rat))}
    {i : Nat} {src dst : Int}
    (h : intMem src lSet = false ∨ intMem dst lSet = false) :
    evolvesLinkAt lSet attr (i, (src, dst)) = some [] := by
  dsimp only [evolvesLinkAt]
  rcases h with h | h <;> rw [if_neg (by simp [h])]

theorem temporalLinkAt_dropped {lSet : List Nat} {attr : Option (List (List Rat))}
    {i : Nat} {src dst : Int}
    (h : intMem src lSet = false ∨ intMem dst lSet = false) :
    temporalLinkAt lSet attr (i, (src, dst)) = some [] := by
  dsimp only [temporalLinkAt]
  rcases h with h | h <;> rw [if_neg (by simp [h])]

theorem flightLinkAt_none_attr (aSet : List Nat) (ie : Nat × Int × Int) :
    ∃ ls, flightLinkAt aSet none ie = some ls ∧ ∀ l ∈ ls, l.weight = 1 := by
  obtain ⟨i, src, dst⟩ := ie
  dsimp only [flightLinkAt]
  by_cases hc : (intMem src aSet && intMem dst aSet) = true
  · rw [if_pos hc]
    refine ⟨_, rfl, ?_⟩
    intro l hl
    rw [List.mem_singleton] at hl
    subst hl
    rfl
  · rw [if_neg hc]
    exact ⟨[], rfl, by simp⟩

theorem sampledAtLinkAt_none_attr (lSet aSet : List Nat) (ie : Nat × Int × Int) :
    ∃ ls, sampledAtLinkAt lSet aSet none ie = some ls ∧
      ∀ l ∈ ls, l.weight = 0 ∧ l.week = some 0 := by
  obtain ⟨i, src, dst⟩ := ie
  dsimp only [sampledAtLinkAt]
  by_cases hc : (intMem src lSet && intMem dst aSet) = true
  · rw [if_pos hc]
    refine ⟨_, rfl, ?_⟩
    intro l hl
    rw [List.mem_singleton] at hl
    subst hl
    exact ⟨rfl, rfl⟩
  · rw [if_neg hc]
    exact ⟨[], rfl, by simp⟩

theorem evolvesLinkAt_none_attr (lSet : List Nat) (ie : Nat × Int × Int) :
    ∃ ls, evolvesLinkAt lSet none ie = some ls ∧ ∀ l ∈ ls, l.weight = 1 := by
  obtain ⟨i, src, dst⟩ := ie
  dsimp only [evolvesLinkAt]
  by_cases hc : (intMem src lSet && intMem dst lSet) = true
  · rw [if_pos hc]
    refine ⟨_, rfl, ?_⟩
    intro l hl
    rw [List.mem_singleton] at hl
    subst hl
    rfl
  · rw [if_neg hc]
    exact ⟨[], rfl, by simp⟩

theorem temporalLinkAt_none_attr (lSet : List Nat) (ie : Nat × Int × Int) :
    ∃ ls, temporalLinkAt lSet none ie = some ls ∧
      ∀ l ∈ ls, l.weight = 0 ∧ l.time_start = some 0 ∧ l.time_end = some 0 := by
  obtain ⟨i, src, dst⟩ := ie
  dsimp only [temporalLinkAt]
  by_cases hc : (intMem src lSet && intMem dst lSet) = true
  · rw [if_pos hc]
    refine ⟨_, rfl, ?_⟩
    intro l hl
    rw [List.mem_singleton] at hl
    subst hl
    exact ⟨rfl, rfl, rfl⟩
  · rw [if_neg hc]
    exact ⟨[], rfl, by simp⟩

/-! ## Concrete runs used to exercise the theorems -/

/-- Two airports, two lineages, one edge of every relation type, no
sampling; the sampled_at relation also has one edge with a dangling
source index 5. -/
def exampleInput : ExportInput :=
  { airport_to_idx := [("JFK", 0), ("LAX", 1)]
    lineage_to_idx := [("B.1", 0), ("B.2", 1)]
    hg :=
      { flight := some { edgeIndex := [(0, 1)], edgeAttr := some [[42]] }
        sampledAt := some { edgeIndex := [(0, 1), (5, 0)], edgeAttr := some [[7, 3], [9, 4]] }
        evolves := some { edgeIndex := [(1, 0)], edgeAttr := none }
        temporal := some { edgeIndex := [(0, 0)], edgeAttr := some [[1, 2, 3]] } } }

/-- The document `exampleInput` exports to (under any sampler, since no
sampling limit is given; spelled out for `rangeSampler`). -/
def exampleOutput : Output :=
  { nodes := [.airport 0 "JFK" 0 0 "" "", .airport 1 "LAX" 0 0 "" "",
              .lineage 0 "B.1", .lineage 1 "B.2"]
    links :=
      [{ source := "airport_0", target := "airport_1", type := "flight", weight := 42 },
       { source := "lineage_0", target := "airport_1", type := "sampled_at",
         weight := 7, week := some 3 },
       { source := "lineage_1", target := "lineage_0", type := "evolves_from", weight := 1 },
       { source := "lineage_0", target := "lineage_0", type := "temporal",
         weight := 3, time_start := some 1, time_end := some 2 }]
    metadata := { num_airports := 2, num_lineages := 2, num_edges := 4,
                  edge_types := ["flight", "sampled_at", "evolves_from", "temporal"],
                  sampled := false } }

/-- A run with all three sampling limits given: one of two airports, a
lineage limit larger than the population, and an edge cap of one against
two flight edges. -/
def exampleSampledInput : ExportInput :=
  { airport_to_idx := [("JFK", 0), ("LAX", 1)]
    lineage_to_idx := [("B.1", 0)]
    sample_size := some { airports := some 1, lineages := some 5, edges := some 1 }
    hg := { flight := some { edgeIndex := [(0, 0), (1, 0)], edgeAttr := none } } }

/-- The document `exampleSampledInput` exports to under `rangeSampler`. -/
def exampleSampledOutput : Output :=
  { nodes := [.airport 0 "JFK" 0 0 "" "", .lineage 0 "B.1"]
    links := [{ source := "airport_0", target := "airport_0", type := "flight", weight := 1 }]
    metadata := { num_airports := 1, num_lineages := 1, num_edges := 1,
                  edge_types := ["flight"], sampled := true } }

/-- One flight edge whose relation has no `edge_attr` array. -/
def noAttrInput : ExportInput :=
  { airport_to_idx := [("JFK", 0), ("LAX", 1)]
    lineage_to_idx := []
    hg := { flight := some { edgeIndex := [(0, 1)], edgeAttr := none } } }

/-- A `sample_size` dict holding only an edge cap of zero. -/
def capZeroInput : ExportInput :=
  { airport_to_idx := [("JFK", 0), ("LAX", 1)]
    lineage_to_idx := []
    sample_size := some { edges := some 0 }
    hg := { flight := some { edgeIndex := [(0, 1)], edgeAttr := none } } }

/-- A `sample_size` that is an empty dict `{}`: not `None`, yet carrying
no limit at all. -/
def emptySampleInput : ExportInput :=
  { airport_to_idx := [("JFK", 0)]
    lineage_to_idx := []
    sample_size := some {}
    hg := {} }

/-! ## The claims -/

/-- C9: on the concrete input with airport mapping `{"JFK": 0, "LAX": 1}`,
an empty lineage mapping, one flight edge `(0, 1)` with attribute weight
42 and no sampling limits, the export succeeds and produces exactly the
two airport node records `airport_0` (code JFK) and `airport_1` (code
LAX) and exactly the one link
`{source: airport_0, target: airport_1, type: flight, weight: 42.0}` —
under every sampler, since no sampling limit is given. -/
theorem concrete_scenario_export (rng : Sampler) :
    export_hetero_graph_to_json
      { airport_to_idx := [("JFK", 0), ("LAX", 1)]
        lineage_to_idx := []
        hg := { flight := some { edgeIndex := [(0, 1)], edgeAttr := some [[42]] } } }
      rng =
    some
      { nodes := [.airport 0 "JFK" 0 0 "" "", .airport 1 "LAX" 0 0 "" ""]
        links := [{ source := "airport_0", target := "airport_1",
                    type := "flight", weight := 42 }]
        metadata := { num_airports := 2, num_lineages := 0, num_edges := 1,
                      edge_types := ["flight"], sampled := false } } := rfl

/-- C3: in every emitted document, `metadata.num_edges` equals the length
of `links`, and `metadata.edge_types`, read as a set, is exactly the set
of distinct `type` values occurring among the links. -/
theorem metadata_edge_summary {inp : ExportInput} {rng : Sampler} {out : Output}
    (h : export_hetero_graph_to_json inp rng = some out) :
    out.metadata.num_edges = out.links.length ∧
    ∀ t, t ∈ out.metadata.edge_types ↔ ∃ l ∈ out.links, l.type = t := by
  obtain ⟨airports, lineages, fl, sa, ev, te, -, -, -, -, -, -, rfl⟩ := export_destruct h
  refine ⟨rfl, fun t => ?_⟩
  simp only [assembleOutput, List.mem_dedup, List.mem_map]

/-- Witness for `metadata_edge_summary` at the concrete run
`exampleInput` / `rangeSampler`. -/
theorem metadata_edge_summary_witness :
    export_hetero_graph_to_json exampleInput rangeSampler = some exampleOutput ∧
    (exampleOutput.metadata.num_edges = exampleOutput.links.length ∧
      ∀ t, t ∈ exampleOutput.metadata.edge_types ↔
        ∃ l ∈ exampleOutput.links, l.type = t) :=
  ⟨by decide, @metadata_edge_summary exampleInput rangeSampler exampleOutput (by decide)⟩

/-- C7 counterexample: with `sample_size = {}` (an empty dict, which is
not `None` but contains no limit), the emitted `metadata.sampled` is
`true` even though no sampling limit was given — refuting "`sampled` is
true if and only if some sampling limit was actually given". -/
theorem sampled_flag_without_limits :
    (export_hetero_graph_to_json emptySampleInput rangeSampler).map
        (fun o => o.metadata.sampled) = some true ∧
    limitGiven emptySampleInput.sample_size = false := ⟨by decide, by decide⟩

/-- C7 amended: `metadata.sampled` records whether the `sample_size`
argument was passed at all (`sample_size is not None`), not whether any
limit was actually given inside it. -/
theorem sampled_flag_iff_some {inp : ExportInput} {rng : Sampler} {out : Output}
    (h : export_hetero_graph_to_json inp rng = some out) :
    out.metadata.sampled = inp.sample_size.isSome := by
  obtain ⟨airports, lineages, fl, sa, ev, te, -, -, -, -, -, -, rfl⟩ := export_destruct h
  rfl

/-- Witness for `sampled_flag_iff_some` at `exampleSampledInput`. -/
theorem sampled_flag_iff_some_witness :
    export_hetero_graph_to_json exampleSampledInput rangeSampler
        = some exampleSampledOutput ∧
    exampleSampledOutput.metadata.sampled = exampleSampledInput.sample_size.isSome :=
  ⟨by decide, @sampled_flag_iff_some exampleSampledInput rangeSampler exampleSampledOutput (by decide)⟩

/-- C1: in every emitted document, for every link the `source` id and `target`
id each equal the id of some node record of the emitted `nodes` array. -/
theorem links_endpoints_exist {inp : ExportInput} {rng : Sampler} {out : Output}
    (h : export_hetero_graph_to_json inp rng = some out) :
    ∀ l ∈ out.links,
      (∃ n ∈ out.nodes, n.id = l.source) ∧ ∃ n ∈ out.nodes, n.id = l.target := by
  obtain ⟨airports, lineages, fl, sa, ev, te, ha, hl, hf, hs, he, ht, rfl⟩ :=
    export_destruct h
  have hA : ∀ idx ∈ airportSetOf inp rng,
      ∃ r ∈ airports ++ lineages, r.id = airportStringId (idx : Int) := by
    intro idx hidx
    obtain ⟨r, hr, hid⟩ := mapOpt_mem ha idx hidx
    exact ⟨r, List.mem_append_left _ hr, (buildAirport_shape hid).1⟩
  have hB : ∀ idx ∈ lineageSetOf inp rng,
      ∃ r ∈ airports ++ lineages, r.id = lineageStringId (idx : Int) := by
    intro idx hidx
    obtain ⟨r, hr, hid⟩ := mapOpt_mem hl idx hidx
    exact ⟨r, List.mem_append_right _ hr, (buildLineage_shape hid).1⟩
  have Pfl : ∀ l ∈ fl,
      (∃ sn ∈ airportSetOf inp rng, l.source = airportStringId (sn : Int)) ∧
      ∃ tn ∈ airportSetOf inp rng, l.target = airportStringId (tn : Int) :=
    relationLinks_forall hf (fun _ _ _ hbs l hl' => (flightLinkAt_shape hbs l hl').2)
  have Psa : ∀ l ∈ sa,
      (∃ sn ∈ lineageSetOf inp rng, l.source = lineageStringId (sn : Int)) ∧
      ∃ tn ∈ airportSetOf inp rng, l.target = airportStringId (tn : Int) :=
    relationLinks_forall hs (fun _ _ _ hbs l hl' => (sampledAtLinkAt_shape hbs l hl').2)
  have Pev : ∀ l ∈ ev,
      (∃ sn ∈ lineageSetOf inp rng, l.source = lineageStringId (sn : Int)) ∧
      ∃ tn ∈ lineageSetOf inp rng, l.target = lineageStringId (tn : Int) :=
    relationLinks_forall he (fun _ _ _ hbs l hl' => (evolvesLinkAt_shape hbs l hl').2)
  have Pte : ∀ l ∈ te,
      (∃ sn ∈ lineageSetOf inp rng, l.source = lineageStringId (sn : Int)) ∧
      ∃ tn ∈ lineageSetOf inp rng, l.target = lineageStringId (tn : Int) :=
    relationLinks_forall ht (fun _ _ _ hbs l hl' => (temporalLinkAt_shape hbs l hl').2)
  intro l hlmem
  simp only [assembleOutput] at hlmem ⊢
  rcases List.mem_append.mp hlmem with h3 | hm
  case _ =>
    rcases List.mem_append.mp h3 with h2 | hm
    case _ =>
      rcases List.mem_append.mp h2 with hm | hm
      case _ =>
        obtain ⟨⟨sn, hsn, hsl⟩, tn, htn, htl⟩ := Pfl l hm
        obtain ⟨r1, hr1, hid1⟩ := hA sn hsn
        obtain ⟨r2, hr2, hid2⟩ := hA tn htn
        exact ⟨⟨r1, hr1, by rw [hid1, hsl]⟩, ⟨r2, hr2, by rw [hid2, htl]⟩⟩
      case _ =>
        obtain ⟨⟨sn, hsn, hsl⟩, tn, htn, htl⟩ := Psa l hm
        obtain ⟨r1, hr1, hid1⟩ := hB sn hsn
        obtain ⟨r2, hr2, hid2⟩ := hA tn htn
        exact ⟨⟨r1, hr1, by rw [hid1, hsl]⟩, ⟨r2, hr2, by rw [hid2, htl]⟩⟩
    case _ =>
      obtain ⟨⟨sn, hsn, hsl⟩, tn, htn, htl⟩ := Pev l hm
      obtain ⟨r1, hr1, hid1⟩ := hB sn hsn
      obtain ⟨r2, hr2, hid2⟩ := hB tn htn
      exact ⟨⟨r1, hr1, by rw [hid1, hsl]⟩, ⟨r2, hr2, by rw [hid2, htl]⟩⟩
  case _ =>
    obtain ⟨⟨sn, hsn, hsl⟩, tn, htn, htl⟩ := Pte l hm
    obtain ⟨r1, hr1, hid1⟩ := hB sn hsn
    obtain ⟨r2, hr2, hid2⟩ := hB tn htn
    exact ⟨⟨r1, hr1, by rw [hid1, hsl]⟩, ⟨r2, hr2, by rw [hid2, htl]⟩⟩

/-- Witness for `links_endpoints_exist` at the concrete run
`exampleInput` / `rangeSampler`. -/
theorem links_endpoints_exist_witness :
    export_hetero_graph_to_json exampleInput rangeSampler = some exampleOutput ∧
    ∀ l ∈ exampleOutput.links,
      (∃ n ∈ exampleOutput.nodes, n.id = l.source) ∧
      ∃ n ∈ exampleOutput.nodes, n.id = l.target :=
  ⟨by decide, @links_endpoints_exist exampleInput rangeSampler exampleOutput (by decide)⟩

/-- Filtering a uniformly tagged link list for its own tag keeps it. -/
theorem filter_type_eq_self {ls : List LinkRec} {t : String}
    (h : ∀ l ∈ ls, l.type = t) : (ls.filter fun l => l.type == t) = ls :=
  List.filter_eq_self.mpr fun l hl => by simp [h l hl]

/-- Filtering a uniformly tagged link list for a different tag drops it. -/
theorem filter_type_eq_nil {ls : List LinkRec} {t u : String}
    (h : ∀ l ∈ ls, l.type = t) (hne : (t == u) = false) :
    (ls.filter fun l => l.type == u) = [] :=
  List.filter_eq_nil_iff.mpr fun l hl => by simp [h l hl, hne]

/-- C2: for each node type, when a limit `L` is requested the run emits
exactly `min L N` node records of that type (so exactly `L` when
`L ≤ N`, and exactly `N` when the request exceeds the population), and
exactly `N` when no limit is requested. -/
theorem node_counts_clamped {inp : ExportInput} {rng : Sampler} {out : Output}
    (hA : ChoiceValid rng.airports) (hL : ChoiceValid rng.lineages)
    (h : export_hetero_graph_to_json inp rng = some out) :
    (∀ L, airportLimitRequested inp.sample_size = some L →
      (out.nodes.filter fun n => n.type == "airport").length
        = min L inp.airport_to_idx.length) ∧
    (airportLimitRequested inp.sample_size = none →
      (out.nodes.filter fun n => n.type == "airport").length
        = inp.airport_to_idx.length) ∧
    (∀ L, lineageLimitRequested inp.sample_size = some L →
      (out.nodes.filter fun n => n.type == "lineage").length
        = min L inp.lineage_to_idx.length) ∧
    (lineageLimitRequested inp.sample_size = none →
      (out.nodes.filter fun n => n.type == "lineage").length
        = inp.lineage_to_idx.length) := by
  obtain ⟨airports, lineages, fl, sa, ev, te, ha, hlin, -, -, -, -, rfl⟩ :=
    export_destruct h
  have tA : ∀ n ∈ airports, n.type = "airport" := by
    intro n hn
    obtain ⟨idx, -, hidx⟩ := mapOpt_mem_rev ha n hn
    exact (buildAirport_shape hidx).2.2
  have tL : ∀ n ∈ lineages, n.type = "lineage" := by
    intro n hn
    obtain ⟨idx, -, hidx⟩ := mapOpt_mem_rev hlin n hn
    exact (buildLineage_shape hidx).2.2
  have fA : ((airports ++ lineages).filter fun n => n.type == "airport") = airports := by
    have e1 : (airports.filter fun n => n.type == "airport") = airports :=
      List.filter_eq_self.mpr fun n hn => by simp [tA n hn]
    have e2 : (lineages.filter fun n => n.type == "airport") = [] :=
      List.filter_eq_nil_iff.mpr fun n hn => by simp [tL n hn]
    rw [List.filter_append, e1, e2, List.append_nil]
  have fL : ((airports ++ lineages).filter fun n => n.type == "lineage") = lineages := by
    have e1 : (airports.filter fun n => n.type == "lineage") = [] :=
      List.filter_eq_nil_iff.mpr fun n hn => by simp [tA n hn]
    have e2 : (lineages.filter fun n => n.type == "lineage") = lineages :=
      List.filter_eq_self.mpr fun n hn => by simp [tL n hn]
    rw [List.filter_append, e1, e2, List.nil_append]
  have lenA : airports.length = (airportSetOf inp rng).length := mapOpt_length ha
  have lenL : lineages.length = (lineageSetOf inp rng).length := mapOpt_length hlin
  refine ⟨?_, ?_, ?_, ?_⟩ <;> simp only [assembleOutput]
  · intro L hreq
    rw [fA, lenA]
    exact length_airportIndicesOf_some hA hreq
  · intro hreq
    rw [fA, lenA]
    exact length_airportIndicesOf_none hreq
  · intro L hreq
    rw [fL, lenL]
    exact length_lineageIndicesOf_some hL hreq
  · intro hreq
    rw [fL, lenL]
    exact length_lineageIndicesOf_none hreq

/-- Witness for `node_counts_clamped` at the concrete run
`exampleSampledInput` / `rangeSampler`: a limit of 1 on 2 airports gives
1 record, a limit of 5 on 1 lineage gives 1 record. -/
theorem node_counts_clamped_witness :
    ChoiceValid rangeDraw ∧
    export_hetero_graph_to_json exampleSampledInput rangeSampler
      = some exampleSampledOutput ∧
    airportLimitRequested exampleSampledInput.sample_size = some 1 ∧
    lineageLimitRequested exampleSampledInput.sample_size = some 5 ∧
    (exampleSampledOutput.nodes.filter fun n => n.type == "airport").length
      = min 1 exampleSampledInput.airport_to_idx.length ∧
    (exampleSampledOutput.nodes.filter fun n => n.type == "lineage").length
      = min 5 exampleSampledInput.lineage_to_idx.length := by
  refine ⟨choiceValid_rangeDraw, by decide, by decide, by decide, ?_, ?_⟩
  · exact (@node_counts_clamped exampleSampledInput rangeSampler exampleSampledOutput
      choiceValid_rangeDraw choiceValid_rangeDraw (by decide)).1 1 (by decide)
  · exact (@node_counts_clamped exampleSampledInput rangeSampler exampleSampledOutput
      choiceValid_rangeDraw choiceValid_rangeDraw (by decide)).2.2.1 5 (by decide)

/-- C10: the emitted `nodes` array is all airport records followed by all
lineage records, each block in strictly increasing index order — for
every sampler, valid or not, because the code iterates
`sorted(membership set)`. -/
theorem nodes_ordered {inp : ExportInput} {rng : Sampler} {out : Output}
    (h : export_hetero_graph_to_json inp rng = some out) :
    ∃ A L, out.nodes = A ++ L ∧
      (∀ n ∈ A, n.type = "airport") ∧ (∀ n ∈ L, n.type = "lineage") ∧
      (A.map NodeRec.index).Pairwise (· < ·) ∧
      (L.map NodeRec.index).Pairwise (· < ·) := by
  obtain ⟨airports, lineages, fl, sa, ev, te, ha, hlin, -, -, -, -, rfl⟩ :=
    export_destruct h
  refine ⟨airports, lineages, rfl, ?_, ?_, ?_, ?_⟩
  · intro n hn
    obtain ⟨idx, -, hidx⟩ := mapOpt_mem_rev ha n hn
    exact (buildAirport_shape hidx).2.2
  · intro n hn
    obtain ⟨idx, -, hidx⟩ := mapOpt_mem_rev hlin n hn
    exact (buildLineage_shape hidx).2.2
  · have hmap : airports.map NodeRec.index = airportSetOf inp rng :=
      mapOpt_map_eq (fun idx r hr => (buildAirport_shape hr).2.1) ha
    rw [hmap]
    exact pairwise_airportIndicesOf _ _ _
  · have hmap : lineages.map NodeRec.index = lineageSetOf inp rng :=
      mapOpt_map_eq (fun idx r hr => (buildLineage_shape hr).2.1) hlin
    rw [hmap]
    exact pairwise_lineageIndicesOf _ _ _

/-- Witness for `nodes_ordered` at `exampleInput` / `rangeSampler`. -/
theorem nodes_ordered_witness :
    export_hetero_graph_to_json exampleInput rangeSampler = some exampleOutput ∧
    ∃ A L, exampleOutput.nodes = A ++ L ∧
      (∀ n ∈ A, n.type = "airport") ∧ (∀ n ∈ L, n.type = "lineage") ∧
      (A.map NodeRec.index).Pairwise (· < ·) ∧
      (L.map NodeRec.index).Pairwise (· < ·) :=
  ⟨by decide, @nodes_ordered exampleInput rangeSampler exampleOutput (by decide)⟩

/-- C4 counterexample: on `noAttrInput`, whose flight relation has
`edge_attr = None`, the export succeeds and the single emitted flight
link has `weight = 1.0`, not `0.0` — refuting "every numeric field of the
link records emitted for that relation defaults to 0 / 0.0". -/
theorem missing_attr_weight_is_one :
    (export_hetero_graph_to_json noAttrInput rangeSampler).map
      (fun o => o.links.map LinkRec.weight) = some [1] := by decide

/-- C4 amended: when the `edge_attr` of a relation is `None` its processing
raises no error, and the defaulted numeric fields are: `weight = 1.0`
for flight and evolves_from; `weight = 0.0` and `week = 0` for
sampled_at; `weight = 0.0` and `time_start = time_end = 0` for temporal.
-/
theorem missing_attr_defaults (aSet lSet : List Nat) (draw : Nat → Nat → List Nat)
    (cap : Option Nat) (r : Relation) (hattr : r.edgeAttr = none) :
    (∃ ls, relationLinks (some r) (flightLinkAt aSet) draw cap = some ls ∧
      ∀ l ∈ ls, l.weight = 1) ∧
    (∃ ls, relationLinks (some r) (sampledAtLinkAt lSet aSet) draw cap = some ls ∧
      ∀ l ∈ ls, l.weight = 0 ∧ l.week = some 0) ∧
    (∃ ls, relationLinks (some r) (evolvesLinkAt lSet) draw cap = some ls ∧
      ∀ l ∈ ls, l.weight = 1) ∧
    (∃ ls, relationLinks (some r) (temporalLinkAt lSet) draw cap = some ls ∧
      ∀ l ∈ ls, l.weight = 0 ∧ l.time_start = some 0 ∧ l.time_end = some 0) := by
  refine ⟨?_, ?_, ?_, ?_⟩ <;> dsimp only [relationLinks] <;> rw [hattr]
  · exact collectOpt_forall (flightLinkAt_none_attr aSet) _
  · exact collectOpt_forall (sampledAtLinkAt_none_attr lSet aSet) _
  · exact collectOpt_forall (evolvesLinkAt_none_attr lSet) _
  · exact collectOpt_forall (temporalLinkAt_none_attr lSet) _

/-- Witness for `missing_attr_defaults` at concrete arguments. -/
theorem missing_attr_defaults_witness :
    (Relation.mk [((0 : Int), (1 : Int))] none).edgeAttr = none ∧
    ((∃ ls, relationLinks (some (Relation.mk [(0, 1)] none)) (flightLinkAt [0, 1])
        rangeDraw none = some ls ∧ ∀ l ∈ ls, l.weight = 1) ∧
     (∃ ls, relationLinks (some (Relation.mk [(0, 1)] none)) (sampledAtLinkAt [0] [0, 1])
        rangeDraw none = some ls ∧ ∀ l ∈ ls, l.weight = 0 ∧ l.week = some 0) ∧
     (∃ ls, relationLinks (some (Relation.mk [(0, 1)] none)) (evolvesLinkAt [0])
        rangeDraw none = some ls ∧ ∀ l ∈ ls, l.weight = 1) ∧
     (∃ ls, relationLinks (some (Relation.mk [(0, 1)] none)) (temporalLinkAt [0])
        rangeDraw none = some ls ∧
        ∀ l ∈ ls, l.weight = 0 ∧ l.time_start = some 0 ∧ l.time_end = some 0)) :=
  ⟨rfl, missing_attr_defaults [0, 1] [0] rangeDraw none (Relation.mk [(0, 1)] none) rfl⟩

/-- C5 counterexample: on `capZeroInput`, whose `sample_size` carries an
edge cap of `0`, the export emits one flight link rather than at most
zero: in `sample_edges` the Python test `if max_edges and ...` treats the
cap `0` as falsy, so no subsampling happens at all. -/
theorem edge_cap_zero_not_enforced :
    (export_hetero_graph_to_json capZeroInput rangeSampler).map
      (fun o => (o.links.filter fun l => l.type == "flight").length) = some 1 := by
  decide

/-- C5 amended: for every nonzero edge cap `C`, each relation contributes
at most `C` links to the emitted document (a cap of `0` is ignored, per
the counterexample). -/
theorem edge_cap_bounds_links {inp : ExportInput} {rng : Sampler} {out : Output}
    {C : Nat}
    (hf : ChoiceValid rng.flight) (hs : ChoiceValid rng.sampledAt)
    (he : ChoiceValid rng.evolves) (ht : ChoiceValid rng.temporal)
    (hcap : maxEdgesPerType inp.sample_size = some C) (hC : C ≠ 0)
    (h : export_hetero_graph_to_json inp rng = some out) :
    ((out.links.filter fun l => l.type == "flight").length ≤ C) ∧
    ((out.links.filter fun l => l.type == "sampled_at").length ≤ C) ∧
    ((out.links.filter fun l => l.type == "evolves_from").length ≤ C) ∧
    ((out.links.filter fun l => l.type == "temporal").length ≤ C) := by
  obtain ⟨airports, lineages, fl, sa, ev, te, -, -, hfl, hsa, hev, hte, rfl⟩ :=
    export_destruct h
  have Tfl := relationLinks_forall hfl
    (fun _ _ _ hbs l hl' => (flightLinkAt_shape hbs l hl').1)
  have Tsa := relationLinks_forall hsa
    (fun _ _ _ hbs l hl' => (sampledAtLinkAt_shape hbs l hl').1)
  have Tev := relationLinks_forall hev
    (fun _ _ _ hbs l hl' => (evolvesLinkAt_shape hbs l hl').1)
  have Tte := relationLinks_forall hte
    (fun _ _ _ hbs l hl' => (temporalLinkAt_shape hbs l hl').1)
  have hfl' : relationLinks inp.hg.flight (flightLinkAt (airportSetOf inp rng))
      rng.flight (some C) = some fl := by rw [← hcap]; exact hfl
  have hsa' : relationLinks inp.hg.sampledAt
      (sampledAtLinkAt (lineageSetOf inp rng) (airportSetOf inp rng))
      rng.sampledAt (some C) = some sa := by rw [← hcap]; exact hsa
  have hev' : relationLinks inp.hg.evolves (evolvesLinkAt (lineageSetOf inp rng))
      rng.evolves (some C) = some ev := by rw [← hcap]; exact hev
  have hte' : relationLinks inp.hg.temporal (temporalLinkAt (lineageSetOf inp rng))
      rng.temporal (some C) = some te := by rw [← hcap]; exact hte
  have Lfl := relationLinks_length_le hf hC
    (fun _ _ _ hbs => flightLinkAt_length_le hbs) hfl'
  have Lsa := relationLinks_length_le hs hC
    (fun _ _ _ hbs => sampledAtLinkAt_length_le hbs) hsa'
  have Lev := relationLinks_length_le he hC
    (fun _ _ _ hbs => evolvesLinkAt_length_le hbs) hev'
  have Lte := relationLinks_length_le ht hC
    (fun _ _ _ hbs => temporalLinkAt_length_le hbs) hte'
  have Ffl : ((fl ++ sa ++ ev ++ te).filter fun l => l.type == "flight") = fl := by
    rw [List.filter_append, List.filter_append, List.filter_append,
      filter_type_eq_self Tfl, filter_type_eq_nil Tsa (by decide),
      filter_type_eq_nil Tev (by decide), filter_type_eq_nil Tte (by decide),
      List.append_nil, List.append_nil, List.append_nil]
  have Fsa : ((fl ++ sa ++ ev ++ te).filter fun l => l.type == "sampled_at") = sa := by
    rw [List.filter_append, List.filter_append, List.filter_append,
      filter_type_eq_nil Tfl (by decide), filter_type_eq_self Tsa,
      filter_type_eq_nil Tev (by decide), filter_type_eq_nil Tte (by decide),
      List.nil_append, List.append_nil, List.append_nil]
  have Fev : ((fl ++ sa ++ ev ++ te).filter fun l => l.type == "evolves_from") = ev := by
    rw [List.filter_append, List.filter_append, List.filter_append,
      filter_type_eq_nil Tfl (by decide), filter_type_eq_nil Tsa (by decide),
      filter_type_eq_self Tev, filter_type_eq_nil Tte (by decide),
      List.nil_append, List.nil_append, List.append_nil]
  have Fte : ((fl ++ sa ++ ev ++ te).filter fun l => l.type == "temporal") = te := by
    rw [List.filter_append, List.filter_append, List.filter_append,
      filter_type_eq_nil Tfl (by decide), filter_type_eq_nil Tsa (by decide),
      filter_type_eq_nil Tev (by decide), filter_type_eq_self Tte,
      List.nil_append, List.nil_append, List.nil_append]
  refine ⟨?_, ?_, ?_, ?_⟩ <;> simp only [assembleOutput]
  · rw [Ffl]; exact Lfl
  · rw [Fsa]; exact Lsa
  · rw [Fev]; exact Lev
  · rw [Fte]; exact Lte

/-- Witness for `edge_cap_bounds_links` at `exampleSampledInput` (edge
cap 1 against two flight edges). -/
theorem edge_cap_bounds_links_witness :
    ChoiceValid rangeDraw ∧
    maxEdgesPerType exampleSampledInput.sample_size = some 1 ∧
    export_hetero_graph_to_json exampleSampledInput rangeSampler
      = some exampleSampledOutput ∧
    ((exampleSampledOutput.links.filter fun l => l.type == "flight").length ≤ 1) ∧
    ((exampleSampledOutput.links.filter fun l => l.type == "sampled_at").length ≤ 1) ∧
    ((exampleSampledOutput.links.filter fun l => l.type == "evolves_from").length ≤ 1) ∧
    ((exampleSampledOutput.links.filter fun l => l.type == "temporal").length ≤ 1) := by
  have hmain := @edge_cap_bounds_links exampleSampledInput rangeSampler
    exampleSampledOutput 1 choiceValid_rangeDraw choiceValid_rangeDraw
    choiceValid_rangeDraw choiceValid_rangeDraw (by decide) (by decide) (by decide)
  exact ⟨choiceValid_rangeDraw, by decide, by decide,
    hmain.1, hmain.2.1, hmain.2.2.1, hmain.2.2.2⟩

/-- C8: an edge endpoint that is out of range for its node type —
negative, at least the population size, or outside the sampled
membership set — makes the edge fail the membership test, so its loop
iteration raises no error and appends no link, whatever the attribute
array holds. -/
theorem out_of_range_edge_dropped {inp : ExportInput} {rng : Sampler}
    (hA : ChoiceValid rng.airports) (hL : ChoiceValid rng.lineages)
    (attr : Option (List (List Rat))) (i : Nat) (src dst : Int) :
    (OutOfRange src inp.airport_to_idx.length (airportSetOf inp rng) ∨
        OutOfRange dst inp.airport_to_idx.length (airportSetOf inp rng) →
      flightLinkAt (airportSetOf inp rng) attr (i, (src, dst)) = some []) ∧
    (OutOfRange src inp.lineage_to_idx.length (lineageSetOf inp rng) ∨
        OutOfRange dst inp.airport_to_idx.length (airportSetOf inp rng) →
      sampledAtLinkAt (lineageSetOf inp rng) (airportSetOf inp rng) attr
        (i, (src, dst)) = some []) ∧
    (OutOfRange src inp.lineage_to_idx.length (lineageSetOf inp rng) ∨
        OutOfRange dst inp.lineage_to_idx.length (lineageSetOf inp rng) →
      evolvesLinkAt (lineageSetOf inp rng) attr (i, (src, dst)) = some []) ∧
    (OutOfRange src inp.lineage_to_idx.length (lineageSetOf inp rng) ∨
        OutOfRange dst inp.lineage_to_idx.length (lineageSetOf inp rng) →
      temporalLinkAt (lineageSetOf inp rng) attr (i, (src, dst)) = some []) := by
  have bndA : ∀ y ∈ airportSetOf inp rng, y < inp.airport_to_idx.length :=
    mem_airportIndicesOf_lt hA
  have bndL : ∀ y ∈ lineageSetOf inp rng, y < inp.lineage_to_idx.length :=
    mem_lineageIndicesOf_lt hL
  refine ⟨?_, ?_, ?_, ?_⟩
  · rintro (ho | ho)
    · exact flightLinkAt_dropped (Or.inl (intMem_eq_false_of_outOfRange bndA ho))
    · exact flightLinkAt_dropped (Or.inr (intMem_eq_false_of_outOfRange bndA ho))
  · rintro (ho | ho)
    · exact sampledAtLinkAt_dropped (Or.inl (intMem_eq_false_of_outOfRange bndL ho))
    · exact sampledAtLinkAt_dropped (Or.inr (intMem_eq_false_of_outOfRange bndA ho))
  · rintro (ho | ho)
    · exact evolvesLinkAt_dropped (Or.inl (intMem_eq_false_of_outOfRange bndL ho))
    · exact evolvesLinkAt_dropped (Or.inr (intMem_eq_false_of_outOfRange bndL ho))
  · rintro (ho | ho)
    · exact temporalLinkAt_dropped (Or.inl (intMem_eq_false_of_outOfRange bndL ho))
    · exact temporalLinkAt_dropped (Or.inr (intMem_eq_false_of_outOfRange bndL ho))

/-- Witness for `out_of_range_edge_dropped`: a flight edge with source
index `-1` is dropped without error. -/
theorem out_of_range_edge_dropped_witness :
    ChoiceValid rangeDraw ∧
    flightLinkAt (airportSetOf exampleInput rangeSampler) none (0, (-1, 0))
      = some [] :=
  ⟨choiceValid_rangeDraw,
    (@out_of_range_edge_dropped exampleInput rangeSampler choiceValid_rangeDraw
        choiceValid_rangeDraw none 0 (-1) 0).1
      (Or.inl (Or.inl (by decide)))⟩

end HGTBioGuard
